import Mathlib

/-!
Verification development for the texlib line-breaking module
(linebreak.py) of the quran-typesetter repository: a shallow embedding
of the Knuth-Plass breakpoint algorithm as implemented there, together
with theorems settling the specification claims.

Modelling conventions:
* Python floats are idealized as exact rationals (all arithmetic in the
  source is plain +, *, /, ** and comparisons, so the idealization is the
  standard one).
* Python exceptions are an explicit error channel (Except PyErr).
* The sum_width / sum_stretch / sum_shrink dictionaries built by
  compute_breakpoints are memoized prefix sums; inside the algorithm we
  use the prefix-sum functions directly, which agree with the tables on
  every index the source ever queries (0 .. m-1).
-/

/-- Python exceptions that the embedded code can raise. -/
inductive PyErr where
  | attributeError
  | keyError
  | indexError
  | valueError
  | unboundLocalError
  deriving DecidableEq, Repr

/-- INFINITY = 1000, the finite sentinel from linebreak.py. -/
def INFINITY : ℚ := 1000

/-- The three node kinds of linebreak.py (Box, Glue, Penalty subclasses). -/
inductive ItemKind where
  | box
  | glue
  | penalty
  deriving DecidableEq, Repr

/-- An Item of a NodeList: the shared attribute record of the Item base
class (width, stretch, shrink, penalty, flagged) plus the subclass tag. -/
structure Item where
  kind : ItemKind
  width : ℚ := 0
  stretch : ℚ := 0
  shrink : ℚ := 0
  penalty : ℚ := 0
  flagged : ℚ := 0
  deriving DecidableEq, Repr

instance : Inhabited Item := ⟨⟨ItemKind.box, 0, 0, 0, 0, 0⟩⟩

def Item.is_box (it : Item) : Bool := it.kind = ItemKind.box

def Item.is_glue (it : Item) : Bool := it.kind = ItemKind.glue

def Item.is_penalty (it : Item) : Bool := it.kind = ItemKind.penalty

/-- Item.is_forced_break: a penalty of minus INFINITY. -/
def Item.is_forced_break (it : Item) : Bool :=
  it.is_penalty && it.penalty = -INFINITY

/-- Constructor shorthand mirroring Box(width=w). -/
def mkBox (w : ℚ) : Item := { kind := ItemKind.box, width := w }

/-- Constructor shorthand mirroring Glue(width=w, stretch=y, shrink=z). -/
def mkGlue (w y z : ℚ) : Item :=
  { kind := ItemKind.glue, width := w, stretch := y, shrink := z }

/-- Constructor shorthand mirroring Penalty(width=w, penalty=p, flagged=f). -/
def mkPenalty (w p f : ℚ) : Item :=
  { kind := ItemKind.penalty, width := w, penalty := p, flagged := f }

/-- NodeList.add_closing_penalty: append the standard closing triple. -/
def addClosingPenalty (l : List Item) : List Item :=
  l ++ [mkPenalty 0 INFINITY 0, mkGlue 0 INFINITY 0, mkPenalty 0 (-INFINITY) 1]

/-- self[i] for an in-range index (every access the algorithm makes is
in range; out of range we return the default Item, never consulted). -/
def item (l : List Item) (i : ℕ) : Item := l.getD i default

/-- NodeList.is_feasible_breakpoint. -/
def isFeasibleBreakpoint (l : List Item) (i : ℕ) : Bool :=
  let node := item l i
  if node.is_penalty && decide (node.penalty < INFINITY) then true
  else if decide (0 < i) && node.is_glue && (item l (i - 1)).is_box then true
  else false

/-- sum_width[i]: total width up to but not including position i. -/
def sumWidth (l : List Item) (i : ℕ) : ℚ :=
  ((l.take i).map Item.width).sum

/-- sum_stretch[i]: total stretch up to but not including position i. -/
def sumStretch (l : List Item) (i : ℕ) : ℚ :=
  ((l.take i).map Item.stretch).sum

/-- sum_shrink[i]: total shrink up to but not including position i. -/
def sumShrink (l : List Item) (i : ℕ) : ℚ :=
  ((l.take i).map Item.shrink).sum

/-- NodeList.measure_width (with the tables present). -/
def measureWidth (l : List Item) (pos1 pos2 : ℕ) : ℚ :=
  sumWidth l pos2 - sumWidth l pos1

/-- NodeList.measure_stretch (with the tables present). -/
def measureStretch (l : List Item) (pos1 pos2 : ℕ) : ℚ :=
  sumStretch l pos2 - sumStretch l pos1

/-- NodeList.measure_shrink (with the tables present). -/
def measureShrink (l : List Item) (pos1 pos2 : ℕ) : ℚ :=
  sumShrink l pos2 - sumShrink l pos1

/-- NodeList.compute_adjustment_ratio.  line_lengths[-1] on an empty
Python list raises IndexError, hence the error channel. -/
def computeAdjustmentRatio (l : List Item) (pos1 pos2 line : ℕ)
    (lineLengths : List ℚ) : Except PyErr ℚ :=
  let length0 := measureWidth l pos1 pos2
  let length := if (item l pos2).is_penalty then length0 + (item l pos2).width
                else length0
  (if h : line < lineLengths.length then Except.ok (lineLengths.get ⟨line, h⟩)
   else match lineLengths.getLast? with
     | some v => Except.ok v
     | none => Except.error PyErr.indexError).bind fun availableLength =>
  Except.ok <|
    if length < availableLength then
      let y := measureStretch l pos1 pos2
      if y > 0 then (availableLength - length) / y else INFINITY
    else if length > availableLength then
      let z := measureShrink l pos1 pos2
      if z > 0 then (availableLength - length) / z else INFINITY
    else 0

/-- An internal _BreakNode of the active-node DP, back-pointer chain
included.  The base constructor is a node with previous = None (only
the initial node is ever built that way); cons carries the predecessor
node itself, exactly as the source's previous reference does. -/
inductive BreakNode where
  | base (position : ℕ) (line : ℕ) (fitness_class : ℕ)
    (totalwidth : ℚ) (totalstretch : ℚ) (totalshrink : ℚ) (demerits : ℚ)
  | cons (position : ℕ) (line : ℕ) (fitness_class : ℕ)
    (totalwidth : ℚ) (totalstretch : ℚ) (totalshrink : ℚ) (demerits : ℚ)
    (previous : BreakNode)
  deriving DecidableEq, Repr

def BreakNode.position : BreakNode → ℕ
  | .base p _ _ _ _ _ _ => p
  | .cons p _ _ _ _ _ _ _ => p

def BreakNode.line : BreakNode → ℕ
  | .base _ ln _ _ _ _ _ => ln
  | .cons _ ln _ _ _ _ _ _ => ln

def BreakNode.fitness_class : BreakNode → ℕ
  | .base _ _ fc _ _ _ _ => fc
  | .cons _ _ fc _ _ _ _ _ => fc

def BreakNode.demerits : BreakNode → ℚ
  | .base _ _ _ _ _ _ d => d
  | .cons _ _ _ _ _ _ d _ => d

def BreakNode.previous : BreakNode → Option BreakNode
  | .base _ _ _ _ _ _ _ => none
  | .cons _ _ _ _ _ _ _ prev => some prev

/-- _BreakNode(position, line, fitness_class, totalwidth, totalstretch,
totalshrink, demerits, previous): the constructor taking the optional
previous reference. -/
def mkNode (position line fitness_class : ℕ)
    (totalwidth totalstretch totalshrink demerits : ℚ)
    (previous : Option BreakNode) : BreakNode :=
  match previous with
  | none =>
    BreakNode.base position line fitness_class totalwidth totalstretch
      totalshrink demerits
  | some A =>
    BreakNode.cons position line fitness_class totalwidth totalstretch
      totalshrink demerits A

/-- Python list.insert(index, x): insert before position index, append
when the index is at or past the end. -/
def insertAt : ℕ → BreakNode → List BreakNode → List BreakNode
  | 0, n, l => n :: l
  | _ + 1, n, [] => [n]
  | k + 1, n, a :: l => a :: insertAt k n l

/-- NodeList.add_active_nodes.  For each candidate: find the insertion
point that keeps the list sorted by line number, scan the run of nodes
with the same line number for a (fitness_class, position) match, and on
a match RETURN from the whole call (the source uses a bare return, so
the remaining candidates of the batch are dropped); otherwise insert. -/
def addActiveNodes (active : List BreakNode) : List BreakNode → List BreakNode
  | [] => active
  | node :: rest =>
    let idx := (active.takeWhile (fun a => decide (a.line < node.line))).length
    let run := (active.drop idx).takeWhile (fun a => decide (a.line = node.line))
    if run.any (fun a =>
        decide (a.fitness_class = node.fitness_class) &&
        decide (a.position = node.position)) then
      active
    else
      addActiveNodes (insertAt idx node active) rest

/-- The demerit / fitness-class computation performed when recording a
feasible break from active node A to position i with ratio r, and the
construction of the resulting _BreakNode.  Note the source stores the
line demerits alone in the new node; A.demerits is never added. -/
def mkBrk (l : List Item) (i : ℕ) (A : BreakNode) (r : ℚ)
    (fitnessDemerit flaggedDemerit : ℚ) : BreakNode :=
  let p_i := (item l i).penalty
  let demerits0 : ℚ :=
    if p_i ≥ 0 then (1 + 100 * |r| ^ 3 + p_i) ^ 3
    else if (item l i).is_forced_break then (1 + 100 * |r| ^ 3) ^ 2 - p_i ^ 2
    else (1 + 100 * |r| ^ 3) ^ 2
  let demerits1 :=
    demerits0 + flaggedDemerit * (item l i).flagged * (item l A.position).flagged
  let fc : ℕ :=
    if r < -(1 / 2) then 0
    else if r ≤ 1 / 2 then 1
    else if r ≤ 1 then 2
    else 3
  let demerits2 :=
    if |(fc : ℤ) - (A.fitness_class : ℤ)| > 1 then demerits1 + fitnessDemerit
    else demerits1
  mkNode i (A.line + 1) fc (sumWidth l i) (sumStretch l i) (sumShrink l i)
    demerits2 (some A)

/-- The body of "for A in active_nodes[:]" at feasible breakpoint i:
walk the snapshot, deactivating nodes (never the last remaining one) and
collecting the feasible breaks.  Returns the updated active list and the
batch of new break nodes. -/
def processSnapshot (l : List Item) (lineLengths : List ℚ)
    (tolerance fitnessDemerit flaggedDemerit : ℚ) (i : ℕ) :
    List BreakNode → List BreakNode → List BreakNode →
    Except PyErr (List BreakNode × List BreakNode)
  | [], active, breaks => Except.ok (active, breaks)
  | A :: rest, active, breaks =>
    (computeAdjustmentRatio l A.position i A.line lineLengths).bind fun r =>
    let active' :=
      if r < -1 ∨ (item l i).is_forced_break = true then
        if active.length = 1 then active else active.erase A
      else active
    let breaks' :=
      if -1 ≤ r ∧ r ≤ tolerance then
        breaks ++ [mkBrk l i A r fitnessDemerit flaggedDemerit]
      else breaks
    processSnapshot l lineLengths tolerance fitnessDemerit flaggedDemerit i
      rest active' breaks'

/-- One iteration of "for i in range(m)": when i is a feasible
breakpoint, process the snapshot of active nodes and, if any feasible
breaks were recorded, insert them via add_active_nodes. -/
def scanStep (l : List Item) (lineLengths : List ℚ)
    (tolerance fitnessDemerit flaggedDemerit : ℚ)
    (active : List BreakNode) (i : ℕ) : Except PyErr (List BreakNode) :=
  if isFeasibleBreakpoint l i then
    (processSnapshot l lineLengths tolerance fitnessDemerit flaggedDemerit i
        active active []).bind fun res =>
      Except.ok (if res.2 = [] then res.1 else addActiveNodes res.1 res.2)
  else Except.ok active

/-- The initial active node: position 0, line 0, fitness class 1,
zero totals and demerits, no predecessor. -/
def initialNode : BreakNode := mkNode 0 0 1 0 0 0 0 none

/-- The active-node list after scanning items 0 .. k-1. -/
def scanPrefix (l : List Item) (lineLengths : List ℚ)
    (tolerance fitnessDemerit flaggedDemerit : ℚ) :
    ℕ → Except PyErr (List BreakNode)
  | 0 => Except.ok [initialNode]
  | k + 1 =>
    (scanPrefix l lineLengths tolerance fitnessDemerit flaggedDemerit k).bind
      fun active =>
        scanStep l lineLengths tolerance fitnessDemerit flaggedDemerit active k

/-- min(active_nodes, key=demerits): Python's min keeps the first
minimum and raises ValueError on an empty list. -/
def minByDemerits : List BreakNode → Except PyErr BreakNode
  | [] => Except.error PyErr.valueError
  | a :: rest =>
    Except.ok (rest.foldl (fun best n =>
      if n.demerits < best.demerits then n else best) a)

/-- State of the looseness-search loop: best (initialized to 0 and,
faithfully to the source, never updated - the source assigns the local
s instead), d (initialized to INFINITY) and the selection b, which the
source leaves unbound until some branch fires. -/
structure LoosenessState where
  best : ℤ
  d : ℚ
  b : Option BreakNode

/-- The looseness != 0 search over the active nodes.  Returns none when
no branch ever fired, in which case the source raises
UnboundLocalError at the assignment A = b. -/
def loosenessSelect (active : List BreakNode) (looseness : ℤ)
    (A : BreakNode) : Option BreakNode :=
  (active.foldl (fun (st : LoosenessState) (br : BreakNode) =>
    let delta : ℤ := (br.line : ℤ) - (A.line : ℤ)
    if (looseness ≤ delta ∧ delta < st.best) ∨
        (st.best < delta ∧ delta < looseness) then
      { st with d := br.demerits, b := some br }
    else if delta = st.best ∧ br.demerits < st.d then
      { st with d := br.demerits, b := some br }
    else st) ⟨0, INFINITY, none⟩).b

/-- The backtrace loop "while A is not None", collecting positions from
the chosen node down to the root (the source reverses at the end). -/
def collectPositions : BreakNode → List ℕ
  | .base pos _ _ _ _ _ _ => [pos]
  | .cons pos _ _ _ _ _ _ prev => pos :: collectPositions prev

/-- NodeList.compute_breakpoints as a function of the item list. -/
def computeBreakpoints (l : List Item) (lineLengths : List ℚ)
    (looseness : ℤ := 0) (tolerance : ℚ := 1)
    (fitnessDemerit : ℚ := 100) (flaggedDemerit : ℚ := 100) :
    Except PyErr (List ℕ) :=
  if l.length = 0 then Except.ok [] else
  (scanPrefix l lineLengths tolerance fitnessDemerit flaggedDemerit
      l.length).bind fun active =>
  (minByDemerits active).bind fun A =>
  (if looseness ≠ 0 then
      match loosenessSelect active looseness A with
      | some b => Except.ok b
      | none => Except.error PyErr.unboundLocalError
    else Except.ok A).bind fun A =>
  Except.ok (collectPositions A).reverse

/-- The prefix-sum table that compute_breakpoints stores in the
sum_width / sum_stretch / sum_shrink dictionaries: entry i (for
i in range(m)) is the total of f over items 0 .. i-1. -/
def prefixTable (l : List Item) (f : Item → ℚ) : List ℚ :=
  (List.range l.length).map fun i => ((l.take i).map f).sum

/-- The NodeList object state: the items plus the three prefix-sum
attributes, absent (none) until compute_breakpoints assigns them. -/
structure NodeList where
  items : List Item
  sum_width : Option (List ℚ)
  sum_stretch : Option (List ℚ)
  sum_shrink : Option (List ℚ)

/-- NodeList(...) as freshly constructed: no prefix-sum attributes. -/
def NodeList.make (items : List Item) : NodeList := ⟨items, none, none, none⟩

/-- Python dict lookup d[k], raising KeyError on a missing key. -/
def dictGet (t : List ℚ) (k : ℕ) : Except PyErr ℚ :=
  match t.get? k with
  | some v => Except.ok v
  | none => Except.error PyErr.keyError

/-- NodeList.measure_width: self.sum_width[pos2] - self.sum_width[pos1];
reading the attribute of an object that never ran compute_breakpoints
raises AttributeError. -/
def NodeList.measure_width (nl : NodeList) (pos1 pos2 : ℕ) : Except PyErr ℚ :=
  match nl.sum_width with
  | none => Except.error PyErr.attributeError
  | some t => (dictGet t pos2).bind fun a => (dictGet t pos1).bind fun b =>
      Except.ok (a - b)

/-- NodeList.measure_stretch, with the same attribute semantics. -/
def NodeList.measure_stretch (nl : NodeList) (pos1 pos2 : ℕ) :
    Except PyErr ℚ :=
  match nl.sum_stretch with
  | none => Except.error PyErr.attributeError
  | some t => (dictGet t pos2).bind fun a => (dictGet t pos1).bind fun b =>
      Except.ok (a - b)

/-- NodeList.measure_shrink, with the same attribute semantics. -/
def NodeList.measure_shrink (nl : NodeList) (pos1 pos2 : ℕ) :
    Except PyErr ℚ :=
  match nl.sum_shrink with
  | none => Except.error PyErr.attributeError
  | some t => (dictGet t pos2).bind fun a => (dictGet t pos1).bind fun b =>
      Except.ok (a - b)

/-- NodeList.compute_breakpoints as a method: on an empty list it
returns [] before the tables are built; otherwise it assigns the three
prefix-sum attributes and runs the scan.  Returns the updated object
and the result. -/
def NodeList.compute_breakpoints (nl : NodeList) (lineLengths : List ℚ)
    (looseness : ℤ := 0) (tolerance : ℚ := 1)
    (fitnessDemerit : ℚ := 100) (flaggedDemerit : ℚ := 100) :
    NodeList × Except PyErr (List ℕ) :=
  if nl.items.length = 0 then (nl, Except.ok []) else
  ({ nl with
      sum_width := some (prefixTable nl.items Item.width),
      sum_stretch := some (prefixTable nl.items Item.stretch),
      sum_shrink := some (prefixTable nl.items Item.shrink) },
    computeBreakpoints nl.items lineLengths looseness tolerance
      fitnessDemerit flaggedDemerit)

set_option maxRecDepth 400000

/-! ## Claim theorems -/

/-- C10: on a NodeList on which compute_breakpoints has not yet been
called, measure_width, measure_stretch and measure_shrink all raise
AttributeError (the prefix-sum tables do not exist at construction);
compute_breakpoints is what installs the three tables on a non-empty
list. -/
theorem measure_before_breakpoints_attribute_error :
    (∀ items : List Item, ∀ pos1 pos2 : ℕ,
      (NodeList.make items).measure_width pos1 pos2 =
          Except.error PyErr.attributeError ∧
      (NodeList.make items).measure_stretch pos1 pos2 =
          Except.error PyErr.attributeError ∧
      (NodeList.make items).measure_shrink pos1 pos2 =
          Except.error PyErr.attributeError) ∧
    (∀ items : List Item, ∀ lineLengths : List ℚ, ∀ looseness : ℤ,
      ∀ tolerance fd flagd : ℚ,
      (((NodeList.make (addClosingPenalty items)).compute_breakpoints
          lineLengths looseness tolerance fd flagd).1.sum_width).isSome ∧
      (((NodeList.make (addClosingPenalty items)).compute_breakpoints
          lineLengths looseness tolerance fd flagd).1.sum_stretch).isSome ∧
      (((NodeList.make (addClosingPenalty items)).compute_breakpoints
          lineLengths looseness tolerance fd flagd).1.sum_shrink).isSome) := by
  constructor
  · intro items pos1 pos2
    refine ⟨rfl, rfl, rfl⟩
  · intro items lineLengths looseness tolerance fd flagd
    have hlen : (addClosingPenalty items).length = items.length + 3 := by
      simp [addClosingPenalty]
    refine ⟨?_, ?_, ?_⟩ <;>
      simp [NodeList.compute_breakpoints, NodeList.make, hlen]

/-- C3: add_active_nodes aborts the whole batch at the first duplicate:
with one active node of triple (line 1, position 3, fitness 1), a batch
whose first candidate duplicates that triple (even with lower demerits)
and whose second candidate is new leaves the active list unchanged -
the duplicate is rejected (first inserted wins) but the fresh second
candidate is also dropped, because the source returns from the whole
method instead of skipping only the duplicate. -/
theorem add_active_nodes_batch_abort :
    addActiveNodes [BreakNode.base 3 1 1 0 0 0 5]
        [BreakNode.base 3 1 1 0 0 0 2, BreakNode.base 7 1 2 0 0 0 9] =
      [BreakNode.base 3 1 1 0 0 0 5] ∧
    BreakNode.base 7 1 2 0 0 0 9 ∉
      addActiveNodes [BreakNode.base 3 1 1 0 0 0 5]
        [BreakNode.base 3 1 1 0 0 0 2, BreakNode.base 7 1 2 0 0 0 9] := by
  constructor
  · with_unfolding_all rfl
  · intro hmem
    rw [show addActiveNodes [BreakNode.base 3 1 1 0 0 0 5]
        [BreakNode.base 3 1 1 0 0 0 2, BreakNode.base 7 1 2 0 0 0 9] =
        [BreakNode.base 3 1 1 0 0 0 5] from by with_unfolding_all rfl] at hmem
    simp at hmem

/-- C6: the demerits stored in a newly created break node are the
demerits of the new line alone; the predecessor's accumulated demerits
are never added.  At a concrete break (penalty cost 2, ratio 0, no
flags, no fitness jump) from a predecessor with demerits 7, the new
node carries demerits 27 = (1 + 0 + 2)^3, not 7 + 27 as the claim
requires. -/
theorem demerits_not_accumulated :
    (mkBrk [mkPenalty 0 2 0] 0 (BreakNode.base 0 0 1 0 0 0 7) 0 100
        100).demerits = 27 ∧
    (BreakNode.base 0 0 1 0 0 0 7).demerits = 7 ∧
    (mkBrk [mkPenalty 0 2 0] 0 (BreakNode.base 0 0 1 0 0 0 7) 0 100
        100).demerits ≠
      (BreakNode.base 0 0 1 0 0 0 7).demerits + 27 := by
  refine ⟨by with_unfolding_all rfl, rfl, ?_⟩
  intro h
  rw [show (mkBrk [mkPenalty 0 2 0] 0 (BreakNode.base 0 0 1 0 0 0 7) 0 100
      100).demerits = 27 from by with_unfolding_all rfl] at h
  rw [show (BreakNode.base 0 0 1 0 0 0 7).demerits = 7 from rfl] at h
  norm_num at h

/-- C2: with looseness = 1 on a paragraph whose surviving active nodes
after the scan have line deltas -1 and 0 and demerits at least
INFINITY, no branch of the looseness search ever fires (best is never
updated from 0 and the strict bounds exclude delta = looseness), so the
selection variable is left unbound and the call raises
UnboundLocalError instead of selecting the node whose line count is
closest to the requested looseness. -/
theorem looseness_unbound_local_error :
    computeBreakpoints (addClosingPenalty [mkBox 5, mkGlue 1 1 1, mkBox 5])
        [6, 2210] 1 1000 100 100 =
      Except.error PyErr.unboundLocalError := by
  with_unfolding_all rfl

lemma isFeasibleBreakpoint_eq (l : List Item) (i : ℕ) :
    isFeasibleBreakpoint l i =
      (((item l i).is_penalty && decide ((item l i).penalty < INFINITY)) ||
        (decide (0 < i) && (item l i).is_glue && (item l (i - 1)).is_box)) := by
  unfold isFeasibleBreakpoint
  cases h1 : (item l i).is_penalty && decide ((item l i).penalty < INFINITY) <;>
    cases h2 : decide (0 < i) && (item l i).is_glue && (item l (i - 1)).is_box <;>
      simp [h1, h2]

lemma Item.not_pen_not_glue_of_box {it : Item} (hb : it.is_box = true) :
    it.is_penalty = false ∧ it.is_glue = false := by
  have hk : it.kind = ItemKind.box := by simpa [Item.is_box] using hb
  simp [Item.is_penalty, Item.is_glue, hk]

/-- C4 (amended): is_feasible_breakpoint l i is true exactly when item
i is a Penalty of cost below INFINITY or item i is Glue immediately
preceded by a Box, and it is never true when item i is a Box.  (The
claim's further clause that it never returns true at i = 0 is false:
a sub-INFINITY Penalty at position 0 is feasible, see the
counterexample.) -/
theorem is_feasible_breakpoint_characterization (l : List Item) (i : ℕ)
    (h : i < l.length) :
    (isFeasibleBreakpoint l i = true ↔
      ((l.get ⟨i, h⟩).is_penalty = true ∧ (l.get ⟨i, h⟩).penalty < INFINITY) ∨
      (0 < i ∧ (l.get ⟨i, h⟩).is_glue = true ∧
        (item l (i - 1)).is_box = true)) ∧
    ((l.get ⟨i, h⟩).is_box = true → isFeasibleBreakpoint l i = false) := by
  have hi : item l i = l.get ⟨i, h⟩ := by
    simp [item, List.getD_eq_getElem?_getD, List.getElem?_eq_getElem h]
  constructor
  · rw [isFeasibleBreakpoint_eq, hi]
    simp [Bool.or_eq_true, Bool.and_eq_true, decide_eq_true_eq, and_assoc]
  · intro hbox
    rw [isFeasibleBreakpoint_eq, hi]
    obtain ⟨hp, hg⟩ := Item.not_pen_not_glue_of_box hbox
    simp only [List.get_eq_getElem] at hp hg ⊢
    simp [hp, hg]

/-- C4, counterexample: position 0 is a feasible breakpoint when item 0
is a Penalty with cost 0 < INFINITY, contradicting the claim that the
function never returns true at i = 0. -/
theorem is_feasible_breakpoint_at_zero_cex :
    isFeasibleBreakpoint [mkPenalty 0 0 0] 0 = true := by
  with_unfolding_all rfl

/-- C4, witness: the characterization applied to the concrete list
[Box, Glue] at index 1 yields feasibility. -/
theorem is_feasible_breakpoint_characterization_witness :
    isFeasibleBreakpoint [mkBox 1, mkGlue 1 1 1] 1 = true :=
  ((is_feasible_breakpoint_characterization [mkBox 1, mkGlue 1 1 1] 1
      (by decide)).1).mpr
    (Or.inr ⟨by decide, by with_unfolding_all rfl, by with_unfolding_all rfl⟩)

lemma target_length_eq (lineLengths : List ℚ) (line : ℕ)
    (hne : lineLengths ≠ []) :
    (if h : line < lineLengths.length then
        Except.ok (lineLengths.get ⟨line, h⟩)
      else match lineLengths.getLast? with
        | some v => Except.ok v
        | none => Except.error PyErr.indexError) =
      (Except.ok (lineLengths.getD (min line (lineLengths.length - 1)) 0) :
        Except PyErr ℚ) := by
  by_cases h : line < lineLengths.length
  · rw [dif_pos h]
    have hmin : min line (lineLengths.length - 1) = line := by omega
    rw [hmin]
    simp [List.getD_eq_getElem?_getD, List.getElem?_eq_getElem h]
  · rw [dif_neg h]
    have hlen : 0 < lineLengths.length := List.length_pos.mpr hne
    have hmin : min line (lineLengths.length - 1) = lineLengths.length - 1 := by
      omega
    have hlast : lineLengths.getLast? =
        some (lineLengths.getD (lineLengths.length - 1) 0) := by
      rw [List.getLast?_eq_getElem?]
      have h2 : lineLengths.length - 1 < lineLengths.length := by omega
      simp [List.getD_eq_getElem?_getD, List.getElem?_eq_getElem h2]
    rw [hmin, hlast]

lemma computeAdjustmentRatio_eq (l : List Item) (pos1 pos2 line : ℕ)
    (lineLengths : List ℚ) (hne : lineLengths ≠ []) :
    computeAdjustmentRatio l pos1 pos2 line lineLengths =
      Except.ok
        (let length := if (item l pos2).is_penalty then
            measureWidth l pos1 pos2 + (item l pos2).width
          else measureWidth l pos1 pos2
        let target := lineLengths.getD (min line (lineLengths.length - 1)) 0
        if length < target then
          if measureStretch l pos1 pos2 > 0 then
            (target - length) / measureStretch l pos1 pos2
          else INFINITY
        else if length > target then
          if measureShrink l pos1 pos2 > 0 then
            (target - length) / measureShrink l pos1 pos2
          else INFINITY
        else 0) := by
  unfold computeAdjustmentRatio
  rw [target_length_eq lineLengths line hne]
  rfl

/-- C5: with a non-empty target-lengths list, the adjustment ratio for
the line from start to end at a given line index is computed from the
natural length (widths in [start, end), plus the width of item end when
it is a Penalty) against target_lengths[min(line, len - 1)]: it is 0 on
an exact fit, (target - length) / stretch for a short line with
positive total stretch, (target - length) / shrink for a long line with
positive total shrink, and the INFINITY sentinel when the needed
elastic capacity is zero. -/
theorem compute_adjustment_ratio_cases (l : List Item) (pos1 pos2 line : ℕ)
    (lineLengths : List ℚ) (hne : lineLengths ≠ []) (hlt : pos1 < pos2) :
    ((if (item l pos2).is_penalty then
        measureWidth l pos1 pos2 + (item l pos2).width
      else measureWidth l pos1 pos2) =
        lineLengths.getD (min line (lineLengths.length - 1)) 0 →
      computeAdjustmentRatio l pos1 pos2 line lineLengths = Except.ok 0) ∧
    ((if (item l pos2).is_penalty then
        measureWidth l pos1 pos2 + (item l pos2).width
      else measureWidth l pos1 pos2) <
        lineLengths.getD (min line (lineLengths.length - 1)) 0 →
      0 < measureStretch l pos1 pos2 →
      computeAdjustmentRatio l pos1 pos2 line lineLengths =
        Except.ok ((lineLengths.getD (min line (lineLengths.length - 1)) 0 -
          (if (item l pos2).is_penalty then
            measureWidth l pos1 pos2 + (item l pos2).width
          else measureWidth l pos1 pos2)) / measureStretch l pos1 pos2)) ∧
    ((if (item l pos2).is_penalty then
        measureWidth l pos1 pos2 + (item l pos2).width
      else measureWidth l pos1 pos2) <
        lineLengths.getD (min line (lineLengths.length - 1)) 0 →
      measureStretch l pos1 pos2 = 0 →
      computeAdjustmentRatio l pos1 pos2 line lineLengths =
        Except.ok INFINITY) ∧
    (lineLengths.getD (min line (lineLengths.length - 1)) 0 <
        (if (item l pos2).is_penalty then
          measureWidth l pos1 pos2 + (item l pos2).width
        else measureWidth l pos1 pos2) →
      0 < measureShrink l pos1 pos2 →
      computeAdjustmentRatio l pos1 pos2 line lineLengths =
        Except.ok ((lineLengths.getD (min line (lineLengths.length - 1)) 0 -
          (if (item l pos2).is_penalty then
            measureWidth l pos1 pos2 + (item l pos2).width
          else measureWidth l pos1 pos2)) / measureShrink l pos1 pos2)) ∧
    (lineLengths.getD (min line (lineLengths.length - 1)) 0 <
        (if (item l pos2).is_penalty then
          measureWidth l pos1 pos2 + (item l pos2).width
        else measureWidth l pos1 pos2) →
      measureShrink l pos1 pos2 = 0 →
      computeAdjustmentRatio l pos1 pos2 line lineLengths =
        Except.ok INFINITY) := by
  rw [computeAdjustmentRatio_eq l pos1 pos2 line lineLengths hne]
  refine ⟨?_, ?_, ?_, ?_, ?_⟩
  · intro heq
    simp only [heq]
    simp
  · intro hlt2 hy
    simp only [if_pos hlt2, if_pos hy]
  · intro hlt2 hy
    rw [hy]
    simp only [if_pos hlt2]
    norm_num
  · intro hgt hz
    have hnlt : ¬ ((if (item l pos2).is_penalty then
        measureWidth l pos1 pos2 + (item l pos2).width
      else measureWidth l pos1 pos2) <
        lineLengths.getD (min line (lineLengths.length - 1)) 0) := by
      exact not_lt.mpr (le_of_lt hgt)
    simp only [if_neg hnlt, if_pos hgt, if_pos hz]
  · intro hgt hz
    have hnlt : ¬ ((if (item l pos2).is_penalty then
        measureWidth l pos1 pos2 + (item l pos2).width
      else measureWidth l pos1 pos2) <
        lineLengths.getD (min line (lineLengths.length - 1)) 0) := by
      exact not_lt.mpr (le_of_lt hgt)
    rw [hz]
    simp only [if_neg hnlt, if_pos hgt]
    norm_num

/-- Well-formedness of a break node's back-pointer chain: the root sits
at position 0 on line 0; every other node was created from its
predecessor A at a position at or after A's, on line A.line + 1, with
an adjustment ratio (computed from A.position to the node's position at
line index A.line) that the scan found to lie in [-1, tolerance]. -/
inductive NodeWF (l : List Item) (lineLengths : List ℚ) (tol : ℚ) :
    BreakNode → Prop where
  | base (fc : ℕ) (tw ts tz d : ℚ) :
      NodeWF l lineLengths tol (BreakNode.base 0 0 fc tw ts tz d)
  | cons (A : BreakNode) (pos fc : ℕ) (tw ts tz d r : ℚ)
      (hA : NodeWF l lineLengths tol A)
      (hpos : A.position ≤ pos)
      (hr : computeAdjustmentRatio l A.position pos A.line lineLengths =
        Except.ok r)
      (hr1 : -1 ≤ r) (hr2 : r ≤ tol) :
      NodeWF l lineLengths tol
        (BreakNode.cons pos (A.line + 1) fc tw ts tz d A)

lemma insertAt_ne_nil (k : ℕ) (n : BreakNode) (l : List BreakNode) :
    insertAt k n l ≠ [] := by
  cases k <;> cases l <;> simp [insertAt]

lemma mem_insertAt (x : BreakNode) :
    ∀ (k : ℕ) (n : BreakNode) (l : List BreakNode),
      x ∈ insertAt k n l → x = n ∨ x ∈ l := by
  intro k
  induction k with
  | zero =>
    intro n l h
    simpa [insertAt] using h
  | succ k ih =>
    intro n l h
    cases l with
    | nil =>
      simp [insertAt] at h
      exact Or.inl h
    | cons a t =>
      simp only [insertAt, List.mem_cons] at h
      rcases h with h | h
      · exact Or.inr (by simp [h])
      · rcases ih n t h with h1 | h1
        · exact Or.inl h1
        · exact Or.inr (by simp [h1])

lemma addActiveNodes_ne_nil :
    ∀ (ns active : List BreakNode), active ≠ [] →
      addActiveNodes active ns ≠ [] := by
  intro ns
  induction ns with
  | nil =>
    intro active h
    simpa [addActiveNodes] using h
  | cons node rest ih =>
    intro active h
    simp only [addActiveNodes]
    split
    · exact h
    · exact ih _ (insertAt_ne_nil _ _ _)

lemma addActiveNodes_mem (x : BreakNode) :
    ∀ (ns active : List BreakNode), x ∈ addActiveNodes active ns →
      x ∈ active ∨ x ∈ ns := by
  intro ns
  induction ns with
  | nil =>
    intro active h
    exact Or.inl (by simpa [addActiveNodes] using h)
  | cons node rest ih =>
    intro active h
    simp only [addActiveNodes] at h
    split at h
    · exact Or.inl h
    · rcases ih _ h with h1 | h1
      · rcases mem_insertAt x _ node active h1 with h2 | h2
        · exact Or.inr (by simp [h2])
        · exact Or.inl h2
      · exact Or.inr (by simp [h1])

lemma erase_ne_nil {active : List BreakNode} {A : BreakNode}
    (hne : active ≠ []) (hlen : active.length ≠ 1) :
    active.erase A ≠ [] := by
  have h2 : 2 ≤ active.length := by
    have := List.length_pos.mpr hne
    omega
  by_cases hm : A ∈ active
  · have := List.length_erase_of_mem hm
    intro hnil
    rw [hnil] at this
    simp at this
    omega
  · rw [List.erase_of_not_mem hm]
    exact hne

lemma processSnapshot_active_ne_nil (l : List Item) (ll : List ℚ)
    (tol fd flagd : ℚ) (i : ℕ) :
    ∀ (snap active breaks : List BreakNode)
      (res : List BreakNode × List BreakNode),
      processSnapshot l ll tol fd flagd i snap active breaks =
        Except.ok res →
      active ≠ [] → res.1 ≠ [] := by
  intro snap
  induction snap with
  | nil =>
    intro active breaks res h hne
    simp only [processSnapshot] at h
    cases h
    exact hne
  | cons A rest ih =>
    intro active breaks res h hne
    simp only [processSnapshot] at h
    cases hr : computeAdjustmentRatio l A.position i A.line ll with
    | error e =>
      rw [hr] at h
      simp [Except.bind] at h
    | ok r =>
      rw [hr] at h
      simp only [Except.bind] at h
      refine ih _ _ _ h ?_
      split
      · split
        · exact hne
        · exact erase_ne_nil hne (by assumption)
      · exact hne

lemma scanStep_active_ne_nil (l : List Item) (ll : List ℚ)
    (tol fd flagd : ℚ) (i : ℕ) (active a' : List BreakNode)
    (h : scanStep l ll tol fd flagd active i = Except.ok a')
    (hne : active ≠ []) : a' ≠ [] := by
  unfold scanStep at h
  split at h
  · cases hps : processSnapshot l ll tol fd flagd i active active [] with
    | error e =>
      rw [hps] at h
      simp [Except.bind] at h
    | ok res =>
      rw [hps] at h
      simp only [Except.bind] at h
      cases h
      have hr1 := processSnapshot_active_ne_nil l ll tol fd flagd i
        active active [] res hps hne
      split
      · exact hr1
      · exact addActiveNodes_ne_nil _ _ hr1
  · cases h
    exact hne

lemma scanPrefix_ne_nil (l : List Item) (ll : List ℚ) (tol fd flagd : ℚ) :
    ∀ (k : ℕ) (active : List BreakNode),
      scanPrefix l ll tol fd flagd k = Except.ok active → active ≠ [] := by
  intro k
  induction k with
  | zero =>
    intro active h
    simp only [scanPrefix] at h
    cases h
    simp
  | succ k ih =>
    intro active h
    simp only [scanPrefix] at h
    cases hs : scanPrefix l ll tol fd flagd k with
    | error e =>
      rw [hs] at h
      simp [Except.bind] at h
    | ok a =>
      rw [hs] at h
      simp only [Except.bind] at h
      exact scanStep_active_ne_nil l ll tol fd flagd k a active h (ih a hs)

lemma mkBrk_position (l : List Item) (i : ℕ) (A : BreakNode) (r fd flagd : ℚ) :
    (mkBrk l i A r fd flagd).position = i := by
  simp [mkBrk, mkNode, BreakNode.position]

lemma mkBrk_wf {l : List Item} {ll : List ℚ} {tol : ℚ} {i : ℕ}
    {A : BreakNode} {r : ℚ} (fd flagd : ℚ)
    (hA : NodeWF l ll tol A) (hpos : A.position ≤ i)
    (hr : computeAdjustmentRatio l A.position i A.line ll = Except.ok r)
    (hr1 : -1 ≤ r) (hr2 : r ≤ tol) :
    NodeWF l ll tol (mkBrk l i A r fd flagd) := by
  simp only [mkBrk, mkNode]
  exact NodeWF.cons A i _ _ _ _ _ r hA hpos hr hr1 hr2

lemma processSnapshot_wf (l : List Item) (ll : List ℚ)
    (tol fd flagd : ℚ) (i : ℕ) :
    ∀ (snap active breaks : List BreakNode)
      (res : List BreakNode × List BreakNode),
      processSnapshot l ll tol fd flagd i snap active breaks =
        Except.ok res →
      (∀ A ∈ snap, NodeWF l ll tol A ∧ A.position ≤ i) →
      (∀ x ∈ active, NodeWF l ll tol x ∧ x.position ≤ i) →
      (∀ x ∈ breaks, NodeWF l ll tol x ∧ x.position ≤ i) →
      (∀ x ∈ res.1, NodeWF l ll tol x ∧ x.position ≤ i) ∧
      (∀ x ∈ res.2, NodeWF l ll tol x ∧ x.position ≤ i) := by
  intro snap
  induction snap with
  | nil =>
    intro active breaks res h hsnap hact hbr
    simp only [processSnapshot] at h
    cases h
    exact ⟨hact, hbr⟩
  | cons A rest ih =>
    intro active breaks res h hsnap hact hbr
    simp only [processSnapshot] at h
    cases hr : computeAdjustmentRatio l A.position i A.line ll with
    | error e =>
      rw [hr] at h
      simp [Except.bind] at h
    | ok r =>
      rw [hr] at h
      simp only [Except.bind] at h
      have hA := hsnap A (by simp)
      refine ih _ _ _ h (fun B hB => hsnap B (by simp [hB])) ?_ ?_
      · intro x hx
        apply hact
        split at hx
        · split at hx
          · exact hx
          · exact List.mem_of_mem_erase hx
        · exact hx
      · intro x hx
        split at hx
        · rcases List.mem_append.mp hx with hx1 | hx1
          · exact hbr x hx1
          · have hx2 : x = mkBrk l i A r fd flagd := by simpa using hx1
            subst hx2
            rename_i hcond
            refine ⟨mkBrk_wf fd flagd hA.1 hA.2 hr hcond.1 hcond.2, ?_⟩
            rw [mkBrk_position]
        · exact hbr x hx

lemma scanStep_wf (l : List Item) (ll : List ℚ) (tol fd flagd : ℚ)
    (i : ℕ) (active a' : List BreakNode)
    (h : scanStep l ll tol fd flagd active i = Except.ok a')
    (hact : ∀ x ∈ active, NodeWF l ll tol x ∧ x.position ≤ i) :
    ∀ x ∈ a', NodeWF l ll tol x ∧ x.position ≤ i := by
  unfold scanStep at h
  split at h
  · cases hps : processSnapshot l ll tol fd flagd i active active [] with
    | error e =>
      rw [hps] at h
      simp [Except.bind] at h
    | ok res =>
      rw [hps] at h
      simp only [Except.bind] at h
      cases h
      have hres := processSnapshot_wf l ll tol fd flagd i active active []
        res hps hact hact (by simp)
      intro x hx
      split at hx
      · exact hres.1 x hx
      · rcases addActiveNodes_mem x _ _ hx with h1 | h1
        · exact hres.1 x h1
        · exact hres.2 x h1
  · cases h
    exact hact

lemma scanPrefix_wf (l : List Item) (ll : List ℚ) (tol fd flagd : ℚ) :
    ∀ (k : ℕ) (active : List BreakNode),
      scanPrefix l ll tol fd flagd k = Except.ok active →
      ∀ x ∈ active, NodeWF l ll tol x ∧ x.position ≤ k := by
  intro k
  induction k with
  | zero =>
    intro active h
    simp only [scanPrefix] at h
    cases h
    intro x hx
    have hx2 : x = initialNode := by simpa using hx
    subst hx2
    exact ⟨NodeWF.base 1 0 0 0 0, by simp [initialNode, mkNode, BreakNode.position]⟩
  | succ k ih =>
    intro active h
    simp only [scanPrefix] at h
    cases hs : scanPrefix l ll tol fd flagd k with
    | error e =>
      rw [hs] at h
      simp [Except.bind] at h
    | ok a =>
      rw [hs] at h
      simp only [Except.bind] at h
      have hstep := scanStep_wf l ll tol fd flagd k a active h
        (fun x hx => (ih a hs x hx))
      intro x hx
      exact ⟨(hstep x hx).1, Nat.le_succ_of_le (hstep x hx).2⟩

lemma computeAdjustmentRatio_isOk (l : List Item) (pos1 pos2 line : ℕ)
    (ll : List ℚ) (hne : ll ≠ []) :
    ∃ r, computeAdjustmentRatio l pos1 pos2 line ll = Except.ok r := by
  rw [computeAdjustmentRatio_eq l pos1 pos2 line ll hne]
  exact ⟨_, rfl⟩

lemma processSnapshot_isOk (l : List Item) (ll : List ℚ)
    (tol fd flagd : ℚ) (i : ℕ) (hne : ll ≠ []) :
    ∀ (snap active breaks : List BreakNode),
      ∃ res, processSnapshot l ll tol fd flagd i snap active breaks =
        Except.ok res := by
  intro snap
  induction snap with
  | nil =>
    intro active breaks
    exact ⟨(active, breaks), rfl⟩
  | cons A rest ih =>
    intro active breaks
    obtain ⟨r, hr⟩ := computeAdjustmentRatio_isOk l A.position i A.line ll hne
    simp only [processSnapshot, hr, Except.bind]
    exact ih _ _

lemma scanStep_isOk (l : List Item) (ll : List ℚ) (tol fd flagd : ℚ)
    (i : ℕ) (active : List BreakNode) (hne : ll ≠ []) :
    ∃ a', scanStep l ll tol fd flagd active i = Except.ok a' := by
  unfold scanStep
  split
  · obtain ⟨res, hres⟩ := processSnapshot_isOk l ll tol fd flagd i hne
      active active []
    rw [hres]
    simp only [Except.bind]
    exact ⟨_, rfl⟩
  · exact ⟨active, rfl⟩

lemma scanPrefix_isOk (l : List Item) (ll : List ℚ) (tol fd flagd : ℚ)
    (hne : ll ≠ []) :
    ∀ k : ℕ, ∃ a, scanPrefix l ll tol fd flagd k = Except.ok a := by
  intro k
  induction k with
  | zero => exact ⟨[initialNode], rfl⟩
  | succ k ih =>
    obtain ⟨a, ha⟩ := ih
    obtain ⟨a', ha'⟩ := scanStep_isOk l ll tol fd flagd k a hne
    simp only [scanPrefix, ha, Except.bind]
    exact ⟨a', ha'⟩

lemma foldl_min_mem :
    ∀ (rest : List BreakNode) (a : BreakNode),
      (rest.foldl (fun best n =>
        if n.demerits < best.demerits then n else best) a) ∈ a :: rest := by
  intro rest
  induction rest with
  | nil => intro a; simp
  | cons n t ih =>
    intro a
    simp only [List.foldl_cons]
    have := ih (if n.demerits < a.demerits then n else a)
    rcases List.mem_cons.mp this with h | h
    · rw [h]
      split
      · simp
      · simp
    · simp [h]

lemma minByDemerits_mem {active : List BreakNode} {A : BreakNode}
    (h : minByDemerits active = Except.ok A) : A ∈ active := by
  cases active with
  | nil => simp [minByDemerits] at h
  | cons a rest =>
    simp only [minByDemerits] at h
    cases h
    exact foldl_min_mem rest a

lemma minByDemerits_isOk {active : List BreakNode} (hne : active ≠ []) :
    ∃ A, minByDemerits active = Except.ok A := by
  cases active with
  | nil => exact absurd rfl hne
  | cons a rest => exact ⟨_, rfl⟩

lemma loosenessSelect_mem {active : List BreakNode} {loos : ℤ}
    {A b : BreakNode} (h : loosenessSelect active loos A = some b) :
    b ∈ active := by
  unfold loosenessSelect at h
  suffices haux : ∀ (lst : List BreakNode) (st : LoosenessState),
      (∀ x, st.b = some x → x ∈ active) → (∀ y ∈ lst, y ∈ active) →
      ∀ x, (lst.foldl (fun (st : LoosenessState) (br : BreakNode) =>
        let delta : ℤ := (br.line : ℤ) - (A.line : ℤ)
        if (loos ≤ delta ∧ delta < st.best) ∨
            (st.best < delta ∧ delta < loos) then
          { st with d := br.demerits, b := some br }
        else if delta = st.best ∧ br.demerits < st.d then
          { st with d := br.demerits, b := some br }
        else st) st).b = some x → x ∈ active by
    exact haux active ⟨0, INFINITY, none⟩ (fun x hx => by simp at hx)
      (fun y hy => hy) b h
  intro lst
  induction lst with
  | nil =>
    intro st hst hmem x hx
    exact hst x hx
  | cons y t ih =>
    intro st hst hmem x hx
    simp only [List.foldl_cons] at hx
    refine ih _ ?_ (fun z hz => hmem z (by simp [hz])) x hx
    intro z hz
    split at hz
    · simp at hz
      exact hz ▸ hmem y (by simp)
    · split at hz
      · simp at hz
        exact hz ▸ hmem y (by simp)
      · exact hst z hz

lemma computeBreakpoints_ok_chosen {l : List Item} {ll : List ℚ}
    {loos : ℤ} {tol fd flagd : ℚ} {bs : List ℕ}
    (h : computeBreakpoints l ll loos tol fd flagd = Except.ok bs)
    (hl : ¬ l.length = 0) :
    ∃ A, NodeWF l ll tol A ∧ bs = (collectPositions A).reverse := by
  unfold computeBreakpoints at h
  rw [if_neg hl] at h
  cases hs : scanPrefix l ll tol fd flagd l.length with
  | error e =>
    rw [hs] at h
    simp [Except.bind] at h
  | ok active =>
    rw [hs] at h
    simp only [Except.bind] at h
    cases hm : minByDemerits active with
    | error e =>
      rw [hm] at h
      simp [Except.bind] at h
    | ok A0 =>
      rw [hm] at h
      simp only [Except.bind] at h
      have hwf := scanPrefix_wf l ll tol fd flagd l.length active hs
      by_cases hloos : loos ≠ 0
      · rw [if_pos hloos] at h
        cases hsel : loosenessSelect active loos A0 with
        | none =>
          rw [hsel] at h
          simp [Except.bind] at h
        | some b =>
          rw [hsel] at h
          simp only [Except.bind] at h
          cases h
          exact ⟨b, (hwf b (loosenessSelect_mem hsel)).1, rfl⟩
      · rw [if_neg hloos] at h
        simp only [Except.bind] at h
        cases h
        exact ⟨A0, (hwf A0 (minByDemerits_mem hm)).1, rfl⟩

lemma collectPositions_ne_nil (n : BreakNode) : collectPositions n ≠ [] := by
  cases n <;> simp [collectPositions]

lemma collectPositions_head (n : BreakNode) :
    (collectPositions n).head? = some n.position := by
  cases n <;> simp [collectPositions, BreakNode.position]

lemma nodewf_collect_getLast {l : List Item} {ll : List ℚ} {tol : ℚ}
    {n : BreakNode} (hn : NodeWF l ll tol n) :
    (collectPositions n).getLast? = some 0 := by
  induction hn with
  | base fc tw ts tz d => simp [collectPositions]
  | cons A pos fc tw ts tz d r hA hpos hr h1 h2 ih =>
    show (pos :: collectPositions A).getLast? = some 0
    cases hc : collectPositions A with
    | nil => exact absurd hc (collectPositions_ne_nil A)
    | cons c t =>
      rw [List.getLast?_cons_cons, ← hc]
      exact ih

lemma nodewf_collect_chain {l : List Item} {ll : List ℚ} {tol : ℚ}
    {n : BreakNode} (hn : NodeWF l ll tol n) :
    List.Chain' (fun a b => b ≤ a) (collectPositions n) := by
  induction hn with
  | base fc tw ts tz d => simp [collectPositions]
  | cons A pos fc tw ts tz d r hA hpos hr h1 h2 ih =>
    show List.Chain' _ (pos :: collectPositions A)
    rw [List.chain'_cons']
    refine ⟨?_, ih⟩
    intro b hb
    rw [collectPositions_head A] at hb
    simp only [Option.mem_def, Option.some_inj] at hb
    exact hb ▸ hpos

lemma nodewf_collect_length {l : List Item} {ll : List ℚ} {tol : ℚ}
    {n : BreakNode} (hn : NodeWF l ll tol n) :
    (collectPositions n).length = n.line + 1 := by
  induction hn with
  | base fc tw ts tz d => simp [collectPositions, BreakNode.line]
  | cons A pos fc tw ts tz d r hA hpos hr h1 h2 ih =>
    show (pos :: collectPositions A).length = _
    simp only [List.length_cons, ih, BreakNode.line]

/-- C9: the active-node set is never emptied during the left-to-right
scan: whatever prefix of the item list has been processed, the
deactivation rule (guarded so that it never removes the last remaining
active node) leaves at least one active node. -/
theorem active_nodes_never_empty (l : List Item) (lineLengths : List ℚ)
    (tol fd flagd : ℚ) (k : ℕ) (active : List BreakNode)
    (h : scanPrefix l lineLengths tol fd flagd k = Except.ok active) :
    active ≠ [] :=
  scanPrefix_ne_nil l lineLengths tol fd flagd k active h

/-- C9, witness: the active set after scanning the whole closing triple
of the empty paragraph with target length 0 is the concrete two-node
list, and the theorem applies to show it is non-empty. -/
theorem active_nodes_never_empty_witness :
    ([BreakNode.base 0 0 1 0 0 0 0,
      BreakNode.cons 2 1 1 0 1000 0 (-999999) (BreakNode.base 0 0 1 0 0 0 0)] :
      List BreakNode) ≠ [] :=
  active_nodes_never_empty (addClosingPenalty []) [0] 1 100 100 3
    [BreakNode.base 0 0 1 0 0 0 0,
      BreakNode.cons 2 1 1 0 1000 0 (-999999) (BreakNode.base 0 0 1 0 0 0 0)]
    (by with_unfolding_all rfl)

/-- C7 (amended): compute_breakpoints returns normally - for any item
list, any non-empty target-lengths list, and looseness = 0 the call
terminates with an ordinary result (an empty item list yields []).
The restrictions are forced by the counterexample: an empty
target-lengths list raises IndexError at the first feasible breakpoint,
and looseness different from 0 can leave the looseness selection
unbound and raise UnboundLocalError even on well-formed input. -/
theorem compute_breakpoints_total_amended (l : List Item)
    (lineLengths : List ℚ) (tol fd flagd : ℚ) (hne : lineLengths ≠ []) :
    ∃ bs, computeBreakpoints l lineLengths 0 tol fd flagd =
      Except.ok bs := by
  unfold computeBreakpoints
  by_cases hl : l.length = 0
  · rw [if_pos hl]
    exact ⟨[], rfl⟩
  · rw [if_neg hl]
    obtain ⟨active, ha⟩ := scanPrefix_isOk l lineLengths tol fd flagd hne
      l.length
    obtain ⟨A, hA⟩ := minByDemerits_isOk
      (scanPrefix_ne_nil l lineLengths tol fd flagd l.length active ha)
    rw [ha]
    simp only [Except.bind, hA]
    simp

/-- C7, counterexample: the claim that compute_breakpoints never raises
on a non-empty closed NodeList fails - with looseness = 1 the
selection loop can leave its variable unbound (UnboundLocalError), and
with an empty target-lengths list the very first feasible breakpoint
raises IndexError. -/
theorem compute_breakpoints_raises_cex :
    computeBreakpoints (addClosingPenalty [mkBox 5, mkGlue 1 1 1, mkBox 5])
        [6, 2210] 1 1000 100 100 =
      Except.error PyErr.unboundLocalError ∧
    computeBreakpoints (addClosingPenalty [mkBox 1]) [] 0 1 100 100 =
      Except.error PyErr.indexError :=
  ⟨by with_unfolding_all rfl, by with_unfolding_all rfl⟩

/-- C7, witness: the amended totality theorem applied to a concrete
paragraph. -/
theorem compute_breakpoints_total_amended_witness :
    ∃ bs, computeBreakpoints (addClosingPenalty
        [mkBox 4, mkGlue 2 1 1, mkBox 4]) [10] 0 1 100 100 =
      Except.ok bs :=
  compute_breakpoints_total_amended
    (addClosingPenalty [mkBox 4, mkGlue 2 1 1, mkBox 4]) [10] 1 100 100
    (by simp)

/-- C1, counterexample: on the NodeList [Penalty(cost 0), Box(5)] with
the closing triple appended (length 5) and target length 0, the break
at position 0 is taken twice - compute_breakpoints returns [0, 0],
which is not strictly increasing and does not end at
len(sequence) - 1 = 4. -/
theorem breaks_not_strictly_increasing_cex :
    computeBreakpoints (addClosingPenalty [mkPenalty 0 0 0, mkBox 5]) [0]
        0 1 100 100 = Except.ok [0, 0] ∧
    ¬ List.Chain' (· < ·) [0, 0] ∧
    ([0, 0] : List ℕ).getLast? ≠
      some ((addClosingPenalty [mkPenalty 0 0 0, mkBox 5]).length - 1) := by
  refine ⟨by with_unfolding_all rfl, by simp [List.chain'_pair], ?_⟩
  have hlen : (addClosingPenalty [mkPenalty 0 0 0, mkBox 5]).length = 5 := by
    simp [addClosingPenalty]
  rw [hlen]
  decide

/-- C1 (amended): on any NodeList with the closing triple appended,
whenever compute_breakpoints returns normally its result is a
non-empty, non-decreasing list of positions whose first element is 0.
(The claim's strict increase and its guarantee that the last element is
len(sequence) - 1 both fail, see the counterexample: position 0 can
repeat, and when no line ending at the forced break fits within the
tolerance the surviving fallback node may end the list early.) -/
theorem breaks_nonempty_head_zero_monotone (l0 : List Item)
    (lineLengths : List ℚ) (loos : ℤ) (tol fd flagd : ℚ) (bs : List ℕ)
    (h : computeBreakpoints (addClosingPenalty l0) lineLengths loos tol fd
      flagd = Except.ok bs) :
    bs ≠ [] ∧ bs.head? = some 0 ∧ List.Sorted (· ≤ ·) bs := by
  have hl : ¬ (addClosingPenalty l0).length = 0 := by
    simp [addClosingPenalty]
  obtain ⟨A, hwf, rfl⟩ := computeBreakpoints_ok_chosen h hl
  refine ⟨?_, ?_, ?_⟩
  · simp [collectPositions_ne_nil]
  · rw [List.head?_reverse]
    exact nodewf_collect_getLast hwf
  · have hchain : List.Chain' (· ≤ ·) (collectPositions A).reverse := by
      rw [List.chain'_reverse]
      exact nodewf_collect_chain hwf
    exact List.chain'_iff_pairwise.mp hchain

/-- C1, witness: on the empty paragraph (just the closing triple) with
target length 6, compute_breakpoints returns [0, 2], and the amended
theorem yields non-emptiness, head 0 and monotonicity for it. -/
theorem breaks_nonempty_head_zero_monotone_witness :
    computeBreakpoints (addClosingPenalty []) [6] 0 1 100 100 =
      Except.ok [0, 2] ∧
    (([0, 2] : List ℕ) ≠ [] ∧ ([0, 2] : List ℕ).head? = some 0 ∧
      List.Sorted (· ≤ ·) ([0, 2] : List ℕ)) := by
  have h : computeBreakpoints (addClosingPenalty []) [6] 0 1 100 100 =
      Except.ok [0, 2] := by with_unfolding_all rfl
  exact ⟨h, breaks_nonempty_head_zero_monotone [] [6] 0 1 100 100 [0, 2] h⟩

lemma nodewf_pairs {l : List Item} {ll : List ℚ} {tol : ℚ}
    {n : BreakNode} (hn : NodeWF l ll tol n) :
    ∀ j : ℕ, j + 1 < (collectPositions n).reverse.length →
      ∃ r, computeAdjustmentRatio l ((collectPositions n).reverse.getD j 0)
          ((collectPositions n).reverse.getD (j + 1) 0) j ll =
        Except.ok r ∧ -1 ≤ r ∧ r ≤ tol := by
  induction hn with
  | base fc tw ts tz d =>
    intro j hj
    simp [collectPositions] at hj
  | cons A pos fc tw ts tz d r hA hpos hr h1 h2 ih =>
    intro j hj
    have hlenA : (collectPositions A).length = A.line + 1 :=
      nodewf_collect_length hA
    have hrev : (collectPositions
        (BreakNode.cons pos (A.line + 1) fc tw ts tz d A)).reverse =
        (collectPositions A).reverse ++ [pos] := by
      simp [collectPositions]
    rw [hrev] at hj ⊢
    have hlenrev : (collectPositions A).reverse.length = A.line + 1 := by
      simp [hlenA]
    rw [List.length_append, hlenrev] at hj
    by_cases hcase : j + 1 < A.line + 1
    · have hja : j < (collectPositions A).reverse.length := by
        rw [hlenrev]; omega
      have hjb : j + 1 < (collectPositions A).reverse.length := by
        rw [hlenrev]; omega
      rw [List.getD_eq_getElem?_getD, List.getElem?_append_left hja,
        List.getD_eq_getElem?_getD, List.getElem?_append_left hjb]
      have hih := ih j (by rw [hlenrev]; exact hcase)
      rwa [List.getD_eq_getElem?_getD, List.getD_eq_getElem?_getD] at hih
    · have hjeq : j = A.line := by simp at hj; omega
      subst hjeq
      have hfirst : ((collectPositions A).reverse ++ [pos]).getD A.line 0 =
          A.position := by
        rw [List.getD_eq_getElem?_getD,
          List.getElem?_append_left (by rw [hlenrev]; omega)]
        have h3 : ((collectPositions A).reverse)[A.line]? =
            (collectPositions A).reverse.getLast? := by
          rw [List.getLast?_eq_getElem?, List.length_reverse, hlenA]
          simp
        rw [h3, List.getLast?_reverse, collectPositions_head]
        rfl
      have hsecond : ((collectPositions A).reverse ++ [pos]).getD
          (A.line + 1) 0 = pos := by
        rw [List.getD_eq_getElem?_getD,
          List.getElem?_append_right (by rw [hlenrev])]
        rw [hlenrev]
        simp
      rw [hfirst, hsecond]
      exact ⟨r, hr, h1, h2⟩

/-- C8: along every break list that compute_breakpoints returns, each
consecutive pair of break positions bounds a line whose adjustment
ratio (at the line index equal to the pair's position in the list) was
computed during the scan and lies in [-1, tolerance]: a new break node
is only ever created from an active node under that very check, and
every link of the chosen node's back-pointer chain was so created. -/
theorem chosen_path_within_tolerance (l : List Item)
    (lineLengths : List ℚ) (loos : ℤ) (tol fd flagd : ℚ) (bs : List ℕ)
    (h : computeBreakpoints l lineLengths loos tol fd flagd =
      Except.ok bs) (j : ℕ) (hj : j + 1 < bs.length) :
    ∃ r, computeAdjustmentRatio l (bs.getD j 0) (bs.getD (j + 1) 0) j
        lineLengths = Except.ok r ∧ -1 ≤ r ∧ r ≤ tol := by
  by_cases hl : l.length = 0
  · unfold computeBreakpoints at h
    rw [if_pos hl] at h
    cases h
    simp at hj
  · obtain ⟨A, hwf, rfl⟩ := computeBreakpoints_ok_chosen h hl
    exact nodewf_pairs hwf j hj

/-- C8, witness: on the closing triple alone with target length 6, the
returned break list is [0, 2] and the single line it contains has an
adjustment ratio within [-1, 1]. -/
theorem chosen_path_within_tolerance_witness :
    ∃ r, computeAdjustmentRatio (addClosingPenalty [])
        (([0, 2] : List ℕ).getD 0 0) (([0, 2] : List ℕ).getD 1 0) 0 [6] =
      Except.ok r ∧ -1 ≤ r ∧ r ≤ 1 :=
  chosen_path_within_tolerance (addClosingPenalty []) [6] 0 1 100 100
    [0, 2] (by with_unfolding_all rfl) 0 (by decide)

/-- C5, witness: a line [Box 4, Glue 2, Box 4] breaking at a Penalty of
width 0 against target 10 fits exactly, so the ratio is 0. -/
theorem compute_adjustment_ratio_cases_witness :
    computeAdjustmentRatio [mkBox 4, mkGlue 2 1 1, mkBox 4, mkPenalty 0 0 0]
        0 3 0 [10] = Except.ok 0 :=
  (compute_adjustment_ratio_cases
      [mkBox 4, mkGlue 2 1 1, mkBox 4, mkPenalty 0 0 0] 0 3 0 [10]
      (by simp) (by decide)).1 (by with_unfolding_all rfl)
